import Mathlib

/-!
Shallow embedding of `src/complex_tensor.py` (class `ComplexTensor`).

A PyTorch tensor is modelled as a shape (list of dimension sizes) together
with its flattened (row-major) rational data.  The host engine's elementwise
operations, matrix multiply, transpose and concatenation are modelled
shape-strictly (operands of identical shape; `mm` with matching inner
dimensions), which covers every "compatible shape" instance the spec talks
about.  Fallible operations (shape destructuring `n, m = self.size()`,
shape mismatches) return `Option`, `none` standing for a raised host error.
-/

/-- Model of a `torch.Tensor`: shape plus row-major flattened data. -/
structure Tensor where
  shape : List Nat
  flat : List ℚ
deriving DecidableEq, Repr

/-- Elementwise addition of two tensors (`torch` `+` on same-shape operands). -/
def ewAdd (a b : Tensor) : Option Tensor :=
  if a.shape = b.shape then some ⟨a.shape, List.zipWith (· + ·) a.flat b.flat⟩ else none

/-- Elementwise subtraction of two tensors (`torch` `-` on same-shape operands). -/
def ewSub (a b : Tensor) : Option Tensor :=
  if a.shape = b.shape then some ⟨a.shape, List.zipWith (· - ·) a.flat b.flat⟩ else none

/-- Elementwise multiplication of two tensors (`torch` `*` on same-shape operands). -/
def ewMul (a b : Tensor) : Option Tensor :=
  if a.shape = b.shape then some ⟨a.shape, List.zipWith (· * ·) a.flat b.flat⟩ else none

/-- Tensor plus scalar, elementwise. -/
def sAdd (a : Tensor) (s : ℚ) : Tensor := ⟨a.shape, a.flat.map (· + s)⟩

/-- Tensor minus scalar, elementwise. -/
def sSub (a : Tensor) (s : ℚ) : Tensor := ⟨a.shape, a.flat.map (· - s)⟩

/-- Tensor times scalar, elementwise. -/
def sMul (a : Tensor) (s : ℚ) : Tensor := ⟨a.shape, a.flat.map (· * s)⟩

/-- Entry `(i, j)` of the matrix product of an `_×k` matrix `a` with a
`k×m` matrix `b`, both given as row-major flat data. -/
def mmEntry (k m : Nat) (a b : List ℚ) (i j : Nat) : ℚ :=
  ((List.range k).map fun l => a.getD (i * k + l) 0 * b.getD (l * m + j) 0).sum

/-- Row-major flat data of the matrix product of an `n×k` matrix with a
`k×m` matrix. -/
def mmFlat (n k m : Nat) (a b : List ℚ) : List ℚ :=
  (List.range (n * m)).map fun x => mmEntry k m a b (x / m) (x % m)

/-- Matrix multiply of two 2-D tensors (`torch.Tensor.mm`). -/
def tmm (a b : Tensor) : Option Tensor :=
  match a.shape, b.shape with
  | [n, k], [k2, m] =>
      if k = k2 then some ⟨[n, m], mmFlat n k m a.flat b.flat⟩ else none
  | _, _ => none

/-- Row-major flat data of the transpose of an `n×m` matrix. -/
def tFlat (n m : Nat) (d : List ℚ) : List ℚ :=
  (List.range (m * n)).map fun x => d.getD (x % n * m + x / n) 0

/-- Transpose of a 2-D tensor (`torch.Tensor.t`). -/
def ttr (a : Tensor) : Option Tensor :=
  match a.shape with
  | [n, m] => some ⟨[m, n], tFlat n m a.flat⟩
  | _ => none

/-- Concatenation of two 2-D tensors along dimension 0
(`torch.cat([a, b], dim=0)` as used by `__graph_copy__`). -/
def cat0 (a b : Tensor) : Option Tensor :=
  match a.shape, b.shape with
  | [n1, m1], [n2, m2] =>
      if m1 = m2 then some ⟨[n1 + n2, m1], a.flat ++ b.flat⟩ else none
  | _, _ => none

/-- The operand taxonomy of the Python operators' runtime dispatch:
`type(other) is torch.Tensor`, `type(other) is ComplexTensor` (represented by
its backing tensor), `np.isreal(other)` (a real scalar), and the fall-through
"complex scalar exposing `.real`/`.imag`" case.  A complex scalar whose
imaginary part is zero satisfies `np.isreal` and is dispatched to the
real-scalar branch, which the definitions below reproduce. -/
inductive Operand where
  | realTensor (tb : Tensor)
  | complexTensor (b : Tensor)
  | realScalar (s : ℚ)
  | complexScalar (re im : ℚ)
deriving DecidableEq, Repr

namespace ComplexTensor

/-- `ComplexTensor.real`: `n, m = self.size(); return self[:n//2]`.
Destructuring the size requires the backing tensor to be exactly 2-D. -/
def real (self : Tensor) : Option Tensor :=
  match self.shape with
  | [n, m] => some ⟨[n / 2, m], self.flat.take (n / 2 * m)⟩
  | _ => none

/-- `ComplexTensor.imag`: `n, m = self.size(); return self[n//2:]`. -/
def imag (self : Tensor) : Option Tensor :=
  match self.shape with
  | [n, m] => some ⟨[n - n / 2, m], self.flat.drop (n / 2 * m)⟩
  | _ => none

/-- `ComplexTensor.__graph_copy__`: `torch.cat([real, imag], dim=0)`,
retagged as a `ComplexTensor`. -/
def graphCopy (re im : Tensor) : Option Tensor := cat0 re im

/-- `ComplexTensor.__add__`. -/
def add (self : Tensor) (other : Operand) : Option Tensor := do
  let re ← ComplexTensor.real self
  let im ← ComplexTensor.imag self
  match other with
  | .realTensor tb => do
      let re ← ewAdd re tb
      graphCopy re im
  | .complexTensor b => do
      let br ← ComplexTensor.real b
      let bi ← ComplexTensor.imag b
      let re ← ewAdd re br
      let im ← ewAdd im bi
      graphCopy re im
  | .realScalar s => graphCopy (sAdd re s) im
  | .complexScalar r i =>
      if i = 0 then graphCopy (sAdd re r) im
      else graphCopy (sAdd re r) (sAdd im i)

/-- `ComplexTensor.__sub__`. -/
def sub (self : Tensor) (other : Operand) : Option Tensor := do
  let re ← ComplexTensor.real self
  let im ← ComplexTensor.imag self
  match other with
  | .realTensor tb => do
      let re ← ewSub re tb
      graphCopy re im
  | .complexTensor b => do
      let br ← ComplexTensor.real b
      let bi ← ComplexTensor.imag b
      let re ← ewSub re br
      let im ← ewSub im bi
      graphCopy re im
  | .realScalar s => graphCopy (sSub re s) im
  | .complexScalar r i =>
      if i = 0 then graphCopy (sSub re r) im
      else graphCopy (sSub re r) (sSub im i)

/-- `ComplexTensor.__mul__`. -/
def mul (self : Tensor) (other : Operand) : Option Tensor := do
  let re ← ComplexTensor.real self
  let im ← ComplexTensor.imag self
  match other with
  | .realTensor tb => do
      let re ← ewMul re tb
      let im ← ewMul im tb
      graphCopy re im
  | .complexTensor b => do
      let br ← ComplexTensor.real b
      let bi ← ComplexTensor.imag b
      let ac ← ewMul re br
      let bd ← ewMul im bi
      let ad ← ewMul re bi
      let bc ← ewMul im br
      let re ← ewSub ac bd
      let im ← ewAdd ad bc
      graphCopy re im
  | .realScalar s => graphCopy (sMul re s) (sMul im s)
  | .complexScalar r i =>
      if i = 0 then graphCopy (sMul re r) (sMul im r)
      else do
        let ac := sMul re r
        let bd := sMul im i
        let ad := sMul re i
        let bc := sMul im r
        let re ← ewSub ac bd
        let im ← ewAdd ad bc
        graphCopy re im

/-- `ComplexTensor.mm`.  Note the scalar cases: the Python method has no
branch for them, so `real`/`imag` keep their initial values (clones of the
halves of `self`) and the method returns a copy of `self`'s content. -/
def mm (self : Tensor) (other : Operand) : Option Tensor := do
  let re ← ComplexTensor.real self
  let im ← ComplexTensor.imag self
  match other with
  | .realTensor tb => do
      let re ← tmm re tb
      let im ← tmm im tb
      graphCopy re im
  | .complexTensor b => do
      let br ← ComplexTensor.real b
      let bi ← ComplexTensor.imag b
      let ac ← tmm re br
      let bd ← tmm im bi
      let ad ← tmm re bi
      let bc ← tmm im br
      let re ← ewSub ac bd
      let im ← ewAdd ad bc
      graphCopy re im
  | .realScalar _ => graphCopy re im
  | .complexScalar _ _ => graphCopy re im

/-- `ComplexTensor.t`. -/
def t (self : Tensor) : Option Tensor := do
  let re ← ComplexTensor.real self
  let im ← ComplexTensor.imag self
  let re ← ttr re
  let im ← ttr im
  graphCopy re im

end ComplexTensor

/-- A real-valued result tensor (the return value of `abs`, which is a plain
tensor of square roots, not a stacked `ComplexTensor`). -/
structure RTensor where
  shape : List Nat
  flat : List ℝ

namespace ComplexTensor

/-- `ComplexTensor.abs`: `torch.sqrt(self.real**2 + self.imag**2)`.
The elementwise sum requires the two halves to have the same shape. -/
noncomputable def abs (self : Tensor) : Option RTensor := do
  let re ← ComplexTensor.real self
  let im ← ComplexTensor.imag self
  if re.shape = im.shape then
    some ⟨re.shape, List.zipWith (fun (x y : ℚ) => Real.sqrt ((x : ℝ) ^ 2 + (y : ℝ) ^ 2)) re.flat im.flat⟩
  else none

/-- `ComplexTensor.__new__`: when positional size arguments follow `x`, the
code runs `size_args = [2] + list(args)` and calls
`super().__new__(cls, x, *size_args)`, so the allocated shape is
`x :: 2 :: args`; with no extra arguments the shape is `[x]`. -/
def ctorSizeArgs (x : Nat) (args : List Nat) : List Nat :=
  if args.length > 0 then x :: 2 :: args else [x]

end ComplexTensor

/-- State of a tensor object relevant to `__deepcopy__`: which storage it
points at, whether it is a graph leaf, whether it tracks gradients, whether
it is sparse, and whether its runtime class is `ComplexTensor`. -/
structure TensorObj where
  sid : Nat
  isLeaf : Bool
  requiresGrad : Bool
  isSparse : Bool
  isComplexClass : Bool
deriving DecidableEq, Repr

/-- The storage pool of the host engine: the next fresh storage id and the
contents of each storage. -/
structure Store where
  next : Nat
  mem : Nat → List ℚ

/-- Overwriting one storage's contents (an in-place mutation). -/
def writeStore (st : Store) (i : Nat) (v : List ℚ) : Store :=
  ⟨st.next, fun j => if j = i then v else st.mem j⟩

/-- The error raised by `__deepcopy__` on non-leaf tensors ("Only Tensors
created explicitly by the user (graph leaves) support the deepcopy
protocol"). -/
inductive DeepCopyError where
  | onlyLeavesSupported
deriving DecidableEq, Repr

namespace ComplexTensor

/-- The tensor object produced by a successful `__deepcopy__`: it points at
the fresh storage, is a leaf, keeps `requires_grad`, keeps sparsity, and has
its class re-tagged to `ComplexTensor`. -/
def copyObj (st : Store) (self : TensorObj) : TensorObj :=
  ⟨st.next, true, self.requiresGrad, self.isSparse, true⟩

/-- The storage pool after a successful `__deepcopy__`: a fresh storage
holding a copy of `self`'s data. -/
def copyStore (st : Store) (self : TensorObj) : Store :=
  ⟨st.next + 1, fun j => if j = st.next then st.mem self.sid else st.mem j⟩

/-- `ComplexTensor.__deepcopy__` (called with an empty memo dictionary).
Non-leaf tensors raise; otherwise both the sparse branch (`clone`) and the
dense branch (`storage().__deepcopy__` plus `set_`) allocate a fresh storage
containing a copy of `self`'s data, re-tag the result's class as
`ComplexTensor`, and copy `requires_grad` over. -/
def deepcopy (st : Store) (self : TensorObj) : Except DeepCopyError (TensorObj × Store) :=
  if ¬ self.isLeaf then .error .onlyLeavesSupported
  else if self.isSparse then
    .ok (⟨st.next, true, self.requiresGrad, true, true⟩,
         ⟨st.next + 1, fun j => if j = st.next then st.mem self.sid else st.mem j⟩)
  else
    .ok (⟨st.next, true, self.requiresGrad, false, true⟩,
         ⟨st.next + 1, fun j => if j = st.next then st.mem self.sid else st.mem j⟩)

end ComplexTensor

/-- Well-formedness of a 2-D backing tensor: declared shape `[n, m]` with
row-major data of matching length, as every real `torch` tensor satisfies. -/
def Wf2 (a : Tensor) (n m : Nat) : Prop :=
  a.shape = [n, m] ∧ a.flat.length = n * m

/-- The stacked-representation invariant of a result tensor: its first
dimension is even, its `real` and `imag` views exist and have identical
shape, and its data is the concatenation of the real view's data with the
imaginary view's data (real part first). -/
def EvenStacked (r : Tensor) : Prop :=
  ∃ k m re im, r.shape = [2 * k, m] ∧ ComplexTensor.real r = some re ∧
    ComplexTensor.imag r = some im ∧ re.shape = im.shape ∧
    r.flat = re.flat ++ im.flat

/-- Operand compatibility for the elementwise operators of a `ComplexTensor`
whose halves are `k×m`: tensor operands are well-formed and of the shape the
host engine accepts, scalars are always fine. -/
def CompatEW (k m : Nat) : Operand → Prop
  | .realTensor tb => tb.shape = [k, m] ∧ tb.flat.length = k * m
  | .complexTensor b => b.shape = [2 * k, m] ∧ b.flat.length = 2 * k * m
  | .realScalar _ => True
  | .complexScalar _ _ => True

/-- Operand compatibility for `mm` on a `ComplexTensor` whose halves are
`k×m`: tensor operands have `m` rows (`p` columns); scalars fall through
the dispatch and are always accepted. -/
def CompatMM (m p : Nat) : Operand → Prop
  | .realTensor tb => tb.shape = [m, p] ∧ tb.flat.length = m * p
  | .complexTensor b => b.shape = [2 * m, p] ∧ b.flat.length = 2 * m * p
  | .realScalar _ => True
  | .complexScalar _ _ => True

/-! ### Helper lemmas -/

theorem real_of_wf {a : Tensor} {k m : Nat} (h : Wf2 a (2 * k) m) :
    ComplexTensor.real a = some ⟨[k, m], a.flat.take (k * m)⟩ := by
  have h2 : 2 * k / 2 = k := by omega
  simp [ComplexTensor.real, h.1, h2]

theorem imag_of_wf {a : Tensor} {k m : Nat} (h : Wf2 a (2 * k) m) :
    ComplexTensor.imag a = some ⟨[k, m], a.flat.drop (k * m)⟩ := by
  have h2 : 2 * k / 2 = k := by omega
  have h3 : 2 * k - k = k := by omega
  simp [ComplexTensor.imag, h.1, h2, h3]

theorem take_len_of_wf {a : Tensor} {k m : Nat} (h : Wf2 a (2 * k) m) :
    (a.flat.take (k * m)).length = k * m := by
  have hle : k * m ≤ 2 * k * m := Nat.mul_le_mul_right m (by omega)
  simp [List.length_take, h.2]
  omega

theorem drop_len_of_wf {a : Tensor} {k m : Nat} (h : Wf2 a (2 * k) m) :
    (a.flat.drop (k * m)).length = k * m := by
  have hsum : 2 * k * m = k * m + k * m := by ring
  simp [List.length_drop, h.2]
  omega

theorem gc_eq (X Y : Tensor) {p q : Nat} (hX : X.shape = [p, q]) (hY : Y.shape = [p, q]) :
    ComplexTensor.graphCopy X Y = some ⟨[p + p, q], X.flat ++ Y.flat⟩ := by
  simp [ComplexTensor.graphCopy, cat0, hX, hY]

theorem real_of_cat {p q : Nat} (f1 f2 : List ℚ) (hl : f1.length = p * q) :
    ComplexTensor.real ⟨[p + p, q], f1 ++ f2⟩ = some ⟨[p, q], f1⟩ := by
  have h2 : (p + p) / 2 = p := by omega
  simp [ComplexTensor.real, h2, List.take_left' hl]

theorem imag_of_cat {p q : Nat} (f1 f2 : List ℚ) (hl : f1.length = p * q) :
    ComplexTensor.imag ⟨[p + p, q], f1 ++ f2⟩ = some ⟨[p, q], f2⟩ := by
  have h2 : (p + p) / 2 = p := by omega
  have h3 : p + p - (p + p) / 2 = p := by omega
  simp [ComplexTensor.imag, h2, h3, List.drop_left' hl]

theorem evenStacked_of_cat {p q : Nat} (f1 f2 : List ℚ) (hl : f1.length = p * q) :
    EvenStacked ⟨[p + p, q], f1 ++ f2⟩ := by
  refine ⟨p, q, ⟨[p, q], f1⟩, ⟨[p, q], f2⟩, ?_, real_of_cat f1 f2 hl,
    imag_of_cat f1 f2 hl, rfl, rfl⟩
  simp [two_mul]

theorem zipWith_fst (f : ℚ → ℚ) :
    ∀ X Y : List ℚ, X.length = Y.length →
      List.zipWith (fun a _ => f a) X Y = X.map f
  | [], [], _ => rfl
  | [], _ :: _, h => by simp at h
  | _ :: _, [], h => by simp at h
  | x :: X, y :: Y, h => by
      simp only [List.zipWith, List.map]
      rw [zipWith_fst f X Y (by simpa using h)]

theorem zipWith_snd (f : ℚ → ℚ) :
    ∀ X Y : List ℚ, X.length = Y.length →
      List.zipWith (fun _ b => f b) X Y = Y.map f
  | [], [], _ => rfl
  | [], _ :: _, h => by simp at h
  | _ :: _, [], h => by simp at h
  | x :: X, y :: Y, h => by
      simp only [List.zipWith, List.map]
      rw [zipWith_snd f X Y (by simpa using h)]

theorem add_realTensor_eq {a tb : Tensor} {k m : Nat} (h : Wf2 a (2 * k) m)
    (hs : tb.shape = [k, m]) :
    ComplexTensor.add a (.realTensor tb) =
      some ⟨[k + k, m],
        List.zipWith (· + ·) (a.flat.take (k * m)) tb.flat ++ a.flat.drop (k * m)⟩ := by
  simp [ComplexTensor.add, real_of_wf h, imag_of_wf h, ewAdd, hs,
    ComplexTensor.graphCopy, cat0]

theorem add_complexTensor_eq {a b : Tensor} {k m : Nat} (h : Wf2 a (2 * k) m)
    (hb : Wf2 b (2 * k) m) :
    ComplexTensor.add a (.complexTensor b) =
      some ⟨[k + k, m],
        List.zipWith (· + ·) (a.flat.take (k * m)) (b.flat.take (k * m)) ++
        List.zipWith (· + ·) (a.flat.drop (k * m)) (b.flat.drop (k * m))⟩ := by
  simp [ComplexTensor.add, real_of_wf h, imag_of_wf h, real_of_wf hb, imag_of_wf hb,
    ewAdd, ComplexTensor.graphCopy, cat0]

theorem add_realScalar_eq {a : Tensor} {k m : Nat} (h : Wf2 a (2 * k) m) (s : ℚ) :
    ComplexTensor.add a (.realScalar s) =
      some ⟨[k + k, m], (a.flat.take (k * m)).map (· + s) ++ a.flat.drop (k * m)⟩ := by
  simp [ComplexTensor.add, real_of_wf h, imag_of_wf h, sAdd,
    ComplexTensor.graphCopy, cat0]

theorem add_complexScalar_eq {a : Tensor} {k m : Nat} (h : Wf2 a (2 * k) m) (r i : ℚ) :
    ComplexTensor.add a (.complexScalar r i) =
      some ⟨[k + k, m],
        (a.flat.take (k * m)).map (· + r) ++ (a.flat.drop (k * m)).map (· + i)⟩ := by
  by_cases hi : i = 0
  · subst hi
    simp [ComplexTensor.add, real_of_wf h, imag_of_wf h, sAdd,
      ComplexTensor.graphCopy, cat0]
  · simp [ComplexTensor.add, real_of_wf h, imag_of_wf h, sAdd, hi,
      ComplexTensor.graphCopy, cat0]

theorem sub_realTensor_eq {a tb : Tensor} {k m : Nat} (h : Wf2 a (2 * k) m)
    (hs : tb.shape = [k, m]) :
    ComplexTensor.sub a (.realTensor tb) =
      some ⟨[k + k, m],
        List.zipWith (· - ·) (a.flat.take (k * m)) tb.flat ++ a.flat.drop (k * m)⟩ := by
  simp [ComplexTensor.sub, real_of_wf h, imag_of_wf h, ewSub, hs,
    ComplexTensor.graphCopy, cat0]

theorem sub_complexTensor_eq {a b : Tensor} {k m : Nat} (h : Wf2 a (2 * k) m)
    (hb : Wf2 b (2 * k) m) :
    ComplexTensor.sub a (.complexTensor b) =
      some ⟨[k + k, m],
        List.zipWith (· - ·) (a.flat.take (k * m)) (b.flat.take (k * m)) ++
        List.zipWith (· - ·) (a.flat.drop (k * m)) (b.flat.drop (k * m))⟩ := by
  simp [ComplexTensor.sub, real_of_wf h, imag_of_wf h, real_of_wf hb, imag_of_wf hb,
    ewSub, ComplexTensor.graphCopy, cat0]

theorem sub_realScalar_eq {a : Tensor} {k m : Nat} (h : Wf2 a (2 * k) m) (s : ℚ) :
    ComplexTensor.sub a (.realScalar s) =
      some ⟨[k + k, m], (a.flat.take (k * m)).map (· - s) ++ a.flat.drop (k * m)⟩ := by
  simp [ComplexTensor.sub, real_of_wf h, imag_of_wf h, sSub,
    ComplexTensor.graphCopy, cat0]

theorem sub_complexScalar_eq {a : Tensor} {k m : Nat} (h : Wf2 a (2 * k) m) (r i : ℚ) :
    ComplexTensor.sub a (.complexScalar r i) =
      some ⟨[k + k, m],
        (a.flat.take (k * m)).map (· - r) ++ (a.flat.drop (k * m)).map (· - i)⟩ := by
  by_cases hi : i = 0
  · subst hi
    simp [ComplexTensor.sub, real_of_wf h, imag_of_wf h, sSub,
      ComplexTensor.graphCopy, cat0]
  · simp [ComplexTensor.sub, real_of_wf h, imag_of_wf h, sSub, hi,
      ComplexTensor.graphCopy, cat0]

theorem mul_realTensor_eq {a tb : Tensor} {k m : Nat} (h : Wf2 a (2 * k) m)
    (hs : tb.shape = [k, m]) :
    ComplexTensor.mul a (.realTensor tb) =
      some ⟨[k + k, m],
        List.zipWith (· * ·) (a.flat.take (k * m)) tb.flat ++
        List.zipWith (· * ·) (a.flat.drop (k * m)) tb.flat⟩ := by
  simp [ComplexTensor.mul, real_of_wf h, imag_of_wf h, ewMul, hs,
    ComplexTensor.graphCopy, cat0]

set_option maxHeartbeats 1000000 in
theorem mul_complexTensor_eq {a b : Tensor} {k m : Nat} (h : Wf2 a (2 * k) m)
    (hb : Wf2 b (2 * k) m) :
    ComplexTensor.mul a (.complexTensor b) =
      some ⟨[k + k, m],
        List.zipWith (· - ·)
          (List.zipWith (· * ·) (a.flat.take (k * m)) (b.flat.take (k * m)))
          (List.zipWith (· * ·) (a.flat.drop (k * m)) (b.flat.drop (k * m))) ++
        List.zipWith (· + ·)
          (List.zipWith (· * ·) (a.flat.take (k * m)) (b.flat.drop (k * m)))
          (List.zipWith (· * ·) (a.flat.drop (k * m)) (b.flat.take (k * m)))⟩ := by
  simp only [ComplexTensor.mul, real_of_wf h, imag_of_wf h, real_of_wf hb, imag_of_wf hb,
    ewMul, ewSub, ewAdd, ComplexTensor.graphCopy, cat0, Option.bind_eq_bind,
    Option.some_bind, reduceIte]

theorem mul_realScalar_eq {a : Tensor} {k m : Nat} (h : Wf2 a (2 * k) m) (s : ℚ) :
    ComplexTensor.mul a (.realScalar s) =
      some ⟨[k + k, m],
        (a.flat.take (k * m)).map (· * s) ++ (a.flat.drop (k * m)).map (· * s)⟩ := by
  simp [ComplexTensor.mul, real_of_wf h, imag_of_wf h, sMul,
    ComplexTensor.graphCopy, cat0]

theorem mul_complexScalar_eq {a : Tensor} {k m : Nat} (h : Wf2 a (2 * k) m) (r i : ℚ) :
    ComplexTensor.mul a (.complexScalar r i) =
      some ⟨[k + k, m],
        List.zipWith (fun x y => x * r - y * i) (a.flat.take (k * m)) (a.flat.drop (k * m)) ++
        List.zipWith (fun x y => x * i + y * r) (a.flat.take (k * m)) (a.flat.drop (k * m))⟩ := by
  have hra := take_len_of_wf h
  have hia := drop_len_of_wf h
  by_cases hi : i = 0
  · subst hi
    have e1 : List.zipWith (fun x y => x * r - y * 0)
        (a.flat.take (k * m)) (a.flat.drop (k * m)) = (a.flat.take (k * m)).map (· * r) := by
      simp only [mul_zero, sub_zero]
      exact zipWith_fst (· * r) _ _ (by omega)
    have e2 : List.zipWith (fun x y => x * 0 + y * r)
        (a.flat.take (k * m)) (a.flat.drop (k * m)) = (a.flat.drop (k * m)).map (· * r) := by
      simp only [mul_zero, zero_add]
      exact zipWith_snd (· * r) _ _ (by omega)
    rw [e1, e2]
    simp [ComplexTensor.mul, real_of_wf h, imag_of_wf h, sMul,
      ComplexTensor.graphCopy, cat0]
  · simp [ComplexTensor.mul, real_of_wf h, imag_of_wf h, sMul, hi, ewSub, ewAdd,
      ComplexTensor.graphCopy, cat0]

theorem mm_realTensor_eq {a tb : Tensor} {k m p : Nat} (h : Wf2 a (2 * k) m)
    (hs : tb.shape = [m, p]) :
    ComplexTensor.mm a (.realTensor tb) =
      some ⟨[k + k, p],
        mmFlat k m p (a.flat.take (k * m)) tb.flat ++
        mmFlat k m p (a.flat.drop (k * m)) tb.flat⟩ := by
  simp [ComplexTensor.mm, real_of_wf h, imag_of_wf h, tmm, hs,
    ComplexTensor.graphCopy, cat0]

set_option maxHeartbeats 1000000 in
theorem mm_complexTensor_eq {a b : Tensor} {k m p : Nat} (h : Wf2 a (2 * k) m)
    (hb : Wf2 b (2 * m) p) :
    ComplexTensor.mm a (.complexTensor b) =
      some ⟨[k + k, p],
        List.zipWith (· - ·)
          (mmFlat k m p (a.flat.take (k * m)) (b.flat.take (m * p)))
          (mmFlat k m p (a.flat.drop (k * m)) (b.flat.drop (m * p))) ++
        List.zipWith (· + ·)
          (mmFlat k m p (a.flat.take (k * m)) (b.flat.drop (m * p)))
          (mmFlat k m p (a.flat.drop (k * m)) (b.flat.take (m * p)))⟩ := by
  simp only [ComplexTensor.mm, real_of_wf h, imag_of_wf h, real_of_wf hb, imag_of_wf hb,
    tmm, ewSub, ewAdd, ComplexTensor.graphCopy, cat0, Option.bind_eq_bind,
    Option.some_bind, reduceIte]

theorem mm_realScalar_eq {a : Tensor} {k m : Nat} (h : Wf2 a (2 * k) m) (s : ℚ) :
    ComplexTensor.mm a (.realScalar s) = some ⟨[k + k, m], a.flat⟩ := by
  simp [ComplexTensor.mm, real_of_wf h, imag_of_wf h, ComplexTensor.graphCopy, cat0]

theorem mm_complexScalar_eq {a : Tensor} {k m : Nat} (h : Wf2 a (2 * k) m) (r i : ℚ) :
    ComplexTensor.mm a (.complexScalar r i) = some ⟨[k + k, m], a.flat⟩ := by
  simp [ComplexTensor.mm, real_of_wf h, imag_of_wf h, ComplexTensor.graphCopy, cat0]

theorem t_eq {a : Tensor} {k m : Nat} (h : Wf2 a (2 * k) m) :
    ComplexTensor.t a =
      some ⟨[m + m, k],
        tFlat k m (a.flat.take (k * m)) ++ tFlat k m (a.flat.drop (k * m))⟩ := by
  simp [ComplexTensor.t, real_of_wf h, imag_of_wf h, ttr, ComplexTensor.graphCopy, cat0]

theorem mmFlat_length (n k m : Nat) (a b : List ℚ) : (mmFlat n k m a b).length = n * m := by
  simp [mmFlat]

theorem tFlat_length (n m : Nat) (d : List ℚ) : (tFlat n m d).length = m * n := by
  simp [tFlat]

theorem getD_map_range (f : Nat → ℚ) {N x : Nat} (hx : x < N) :
    ((List.range N).map f).getD x 0 = f x := by
  have hlen : x < ((List.range N).map f).length := by simpa using hx
  rw [List.getD_eq_getElem?_getD, List.getElem?_eq_getElem hlen]
  simp

theorem tFlat_tFlat {n m : Nat} {d : List ℚ} (hd : d.length = n * m) :
    tFlat m n (tFlat n m d) = d := by
  rcases Nat.eq_zero_or_pos n with hn | hn
  · subst hn
    simp only [Nat.zero_mul] at hd
    have hnil : d = [] := List.length_eq_zero.mp hd
    subst hnil
    simp [tFlat]
  rcases Nat.eq_zero_or_pos m with hm | hm
  · subst hm
    simp only [Nat.mul_zero] at hd
    have hnil : d = [] := List.length_eq_zero.mp hd
    subst hnil
    simp [tFlat]
  apply List.ext_getElem
  · simp only [tFlat, List.length_map, List.length_range, hd]
  intro x h1 h2
  have hx : x < n * m := by simpa [tFlat] using h1
  have h3 : x % m < m := Nat.mod_lt _ hm
  have h4 : x / m < n := (Nat.div_lt_iff_lt_mul hm).2 hx
  have h5 : x % m * n + x / m < m * n := by
    have h6 : x % m * n + n ≤ m * n := by
      have h7 : x % m + 1 ≤ m := h3
      calc x % m * n + n = (x % m + 1) * n := by ring
        _ ≤ m * n := Nat.mul_le_mul_right n h7
    omega
  have e0 : (tFlat m n (tFlat n m d))[x] =
      (tFlat n m d).getD (x % m * n + x / m) 0 := by
    simp [tFlat]
  have e1 : (tFlat n m d).getD (x % m * n + x / m) 0 =
      d.getD ((x % m * n + x / m) % n * m + (x % m * n + x / m) / n) 0 := by
    unfold tFlat
    exact getD_map_range _ h5
  have e2 : (x % m * n + x / m) % n = x / m := by
    have : x % m * n + x / m = n * (x % m) + x / m := by ring
    rw [this, Nat.mul_add_mod, Nat.mod_eq_of_lt h4]
  have e3 : (x % m * n + x / m) / n = x % m := by
    have : x % m * n + x / m = n * (x % m) + x / m := by ring
    rw [this, Nat.mul_add_div hn, Nat.div_eq_of_lt h4, Nat.add_zero]
  have e4 : x / m * m + x % m = x := by
    rw [Nat.mul_comm]
    exact Nat.div_add_mod x m
  have e5 : d.getD x 0 = d[x] := by
    rw [List.getD_eq_getElem?_getD, List.getElem?_eq_getElem h2]
    simp
  rw [e0, e1, e2, e3, e4, e5]

theorem zipWith_sqrt_zero :
    ∀ X Y : List ℚ, X.length = Y.length → (∀ y ∈ Y, y = 0) →
      List.zipWith (fun (x y : ℚ) => Real.sqrt ((x : ℝ) ^ 2 + (y : ℝ) ^ 2)) X Y
        = X.map (fun (q : ℚ) => |(q : ℝ)|)
  | [], [], _, _ => rfl
  | [], _ :: _, h, _ => by simp at h
  | _ :: _, [], h, _ => by simp at h
  | x :: X, y :: Y, h, hz => by
      have hy : y = 0 := hz y (by simp)
      subst hy
      simp only [List.zipWith, List.map]
      congr 1
      · rw [show ((0 : ℚ) : ℝ) ^ 2 = 0 by norm_num, add_zero]
        exact Real.sqrt_sq_eq_abs _
      · exact zipWith_sqrt_zero X Y (by simpa using h)
          (fun z hzz => hz z (by simp [hzz]))

/-! ### Claim theorems -/

/-- C1: for every well-formed ComplexTensor `a` and complex operand — another
ComplexTensor `b` of compatible shape under elementwise multiply, a complex
scalar `r + i·I`, or a ComplexTensor `c` of compatible shape under matrix
multiply — the product is a ComplexTensor whose real part is
`a.real∘b.real − a.imag∘b.imag` and whose imaginary part is
`a.real∘b.imag + a.imag∘b.real` (`∘` being elementwise or matrix multiply
respectively). -/
theorem mul_mm_complex_product (k m p : Nat) (a b c : Tensor) (r i : ℚ)
    (ha : Wf2 a (2 * k) m) (hb : Wf2 b (2 * k) m) (hc : Wf2 c (2 * m) p) :
    (ComplexTensor.mul a (.complexTensor b) =
      some ⟨[k + k, m],
        List.zipWith (· - ·)
          (List.zipWith (· * ·) (a.flat.take (k * m)) (b.flat.take (k * m)))
          (List.zipWith (· * ·) (a.flat.drop (k * m)) (b.flat.drop (k * m))) ++
        List.zipWith (· + ·)
          (List.zipWith (· * ·) (a.flat.take (k * m)) (b.flat.drop (k * m)))
          (List.zipWith (· * ·) (a.flat.drop (k * m)) (b.flat.take (k * m)))⟩ ∧
      ComplexTensor.real ⟨[k + k, m],
        List.zipWith (· - ·)
          (List.zipWith (· * ·) (a.flat.take (k * m)) (b.flat.take (k * m)))
          (List.zipWith (· * ·) (a.flat.drop (k * m)) (b.flat.drop (k * m))) ++
        List.zipWith (· + ·)
          (List.zipWith (· * ·) (a.flat.take (k * m)) (b.flat.drop (k * m)))
          (List.zipWith (· * ·) (a.flat.drop (k * m)) (b.flat.take (k * m)))⟩ =
        some ⟨[k, m],
          List.zipWith (· - ·)
            (List.zipWith (· * ·) (a.flat.take (k * m)) (b.flat.take (k * m)))
            (List.zipWith (· * ·) (a.flat.drop (k * m)) (b.flat.drop (k * m)))⟩ ∧
      ComplexTensor.imag ⟨[k + k, m],
        List.zipWith (· - ·)
          (List.zipWith (· * ·) (a.flat.take (k * m)) (b.flat.take (k * m)))
          (List.zipWith (· * ·) (a.flat.drop (k * m)) (b.flat.drop (k * m))) ++
        List.zipWith (· + ·)
          (List.zipWith (· * ·) (a.flat.take (k * m)) (b.flat.drop (k * m)))
          (List.zipWith (· * ·) (a.flat.drop (k * m)) (b.flat.take (k * m)))⟩ =
        some ⟨[k, m],
          List.zipWith (· + ·)
            (List.zipWith (· * ·) (a.flat.take (k * m)) (b.flat.drop (k * m)))
            (List.zipWith (· * ·) (a.flat.drop (k * m)) (b.flat.take (k * m)))⟩) ∧
    (ComplexTensor.mul a (.complexScalar r i) =
      some ⟨[k + k, m],
        List.zipWith (fun x y => x * r - y * i) (a.flat.take (k * m)) (a.flat.drop (k * m)) ++
        List.zipWith (fun x y => x * i + y * r) (a.flat.take (k * m)) (a.flat.drop (k * m))⟩ ∧
      ComplexTensor.real ⟨[k + k, m],
        List.zipWith (fun x y => x * r - y * i) (a.flat.take (k * m)) (a.flat.drop (k * m)) ++
        List.zipWith (fun x y => x * i + y * r) (a.flat.take (k * m)) (a.flat.drop (k * m))⟩ =
        some ⟨[k, m],
          List.zipWith (fun x y => x * r - y * i) (a.flat.take (k * m)) (a.flat.drop (k * m))⟩ ∧
      ComplexTensor.imag ⟨[k + k, m],
        List.zipWith (fun x y => x * r - y * i) (a.flat.take (k * m)) (a.flat.drop (k * m)) ++
        List.zipWith (fun x y => x * i + y * r) (a.flat.take (k * m)) (a.flat.drop (k * m))⟩ =
        some ⟨[k, m],
          List.zipWith (fun x y => x * i + y * r) (a.flat.take (k * m)) (a.flat.drop (k * m))⟩) ∧
    (ComplexTensor.mm a (.complexTensor c) =
      some ⟨[k + k, p],
        List.zipWith (· - ·)
          (mmFlat k m p (a.flat.take (k * m)) (c.flat.take (m * p)))
          (mmFlat k m p (a.flat.drop (k * m)) (c.flat.drop (m * p))) ++
        List.zipWith (· + ·)
          (mmFlat k m p (a.flat.take (k * m)) (c.flat.drop (m * p)))
          (mmFlat k m p (a.flat.drop (k * m)) (c.flat.take (m * p)))⟩ ∧
      ComplexTensor.real ⟨[k + k, p],
        List.zipWith (· - ·)
          (mmFlat k m p (a.flat.take (k * m)) (c.flat.take (m * p)))
          (mmFlat k m p (a.flat.drop (k * m)) (c.flat.drop (m * p))) ++
        List.zipWith (· + ·)
          (mmFlat k m p (a.flat.take (k * m)) (c.flat.drop (m * p)))
          (mmFlat k m p (a.flat.drop (k * m)) (c.flat.take (m * p)))⟩ =
        some ⟨[k, p],
          List.zipWith (· - ·)
            (mmFlat k m p (a.flat.take (k * m)) (c.flat.take (m * p)))
            (mmFlat k m p (a.flat.drop (k * m)) (c.flat.drop (m * p)))⟩ ∧
      ComplexTensor.imag ⟨[k + k, p],
        List.zipWith (· - ·)
          (mmFlat k m p (a.flat.take (k * m)) (c.flat.take (m * p)))
          (mmFlat k m p (a.flat.drop (k * m)) (c.flat.drop (m * p))) ++
        List.zipWith (· + ·)
          (mmFlat k m p (a.flat.take (k * m)) (c.flat.drop (m * p)))
          (mmFlat k m p (a.flat.drop (k * m)) (c.flat.take (m * p)))⟩ =
        some ⟨[k, p],
          List.zipWith (· + ·)
            (mmFlat k m p (a.flat.take (k * m)) (c.flat.drop (m * p)))
            (mmFlat k m p (a.flat.drop (k * m)) (c.flat.take (m * p)))⟩) := by
  have l1 := take_len_of_wf ha
  have l2 := drop_len_of_wf ha
  have l3 := take_len_of_wf hb
  have l4 := drop_len_of_wf hb
  refine ⟨⟨mul_complexTensor_eq ha hb, real_of_cat _ _ ?_, imag_of_cat _ _ ?_⟩,
    ⟨mul_complexScalar_eq ha r i, real_of_cat _ _ ?_, imag_of_cat _ _ ?_⟩,
    ⟨mm_complexTensor_eq ha hc, real_of_cat _ _ ?_, imag_of_cat _ _ ?_⟩⟩ <;>
    simp [List.length_zipWith, l1, l2, l3, l4, mmFlat_length]

/-- C1 witness: for 1×1 arrays, `(2+3i) * (1-1i) = 5 + 1i`, both via
elementwise multiply with a ComplexTensor operand and with the complex
scalar `1 - 1i`, and via `mm`. -/
theorem mul_mm_complex_product_witness :
    ComplexTensor.mul ⟨[2, 1], [2, 3]⟩ (.complexTensor ⟨[2, 1], [1, -1]⟩) =
      some ⟨[2, 1], [5, 1]⟩ ∧
    ComplexTensor.real ⟨[2, 1], [5, 1]⟩ = some ⟨[1, 1], [5]⟩ ∧
    ComplexTensor.imag ⟨[2, 1], [5, 1]⟩ = some ⟨[1, 1], [1]⟩ ∧
    ComplexTensor.mul ⟨[2, 1], [2, 3]⟩ (.complexScalar 1 (-1)) =
      some ⟨[2, 1], [5, 1]⟩ ∧
    ComplexTensor.mm ⟨[2, 1], [2, 3]⟩ (.complexTensor ⟨[2, 1], [1, -1]⟩) =
      some ⟨[2, 1], [5, 1]⟩ := by
  have h := mul_mm_complex_product 1 1 1 ⟨[2, 1], [2, 3]⟩ ⟨[2, 1], [1, -1]⟩
    ⟨[2, 1], [1, -1]⟩ 1 (-1) ⟨rfl, rfl⟩ ⟨rfl, rfl⟩ ⟨rfl, rfl⟩
  obtain ⟨⟨h1, -, -⟩, ⟨h2, -, -⟩, ⟨h3, -, -⟩⟩ := h
  refine ⟨?_, by norm_num [ComplexTensor.real], by norm_num [ComplexTensor.imag], ?_, ?_⟩
  · rw [h1]; norm_num
  · rw [h2]; norm_num
  · rw [h3]; norm_num [mmFlat, mmEntry, List.range_succ]

/-- C1 counterexample: the claim's concrete instance is arithmetically wrong.
For 1×1 arrays `a = 2+3i` and `b = 1-1i` the code returns `5 + 1i`
(`2*(-1) + 3*1 = 1`), not `5 + (-1)i` as the claim states. -/
theorem mul_concrete_value_counterexample :
    ComplexTensor.mul ⟨[2, 1], [2, 3]⟩ (.complexTensor ⟨[2, 1], [1, -1]⟩) =
      some ⟨[2, 1], [5, 1]⟩ ∧
    ComplexTensor.mul ⟨[2, 1], [2, 3]⟩ (.complexTensor ⟨[2, 1], [1, -1]⟩) ≠
      some ⟨[2, 1], [5, -1]⟩ := by
  have h := mul_complexTensor_eq (a := ⟨[2, 1], [2, 3]⟩) (b := ⟨[2, 1], [1, -1]⟩)
    (k := 1) (m := 1) ⟨rfl, rfl⟩ ⟨rfl, rfl⟩
  constructor
  · rw [h]; norm_num
  · rw [h]; norm_num

/-- C4: `mm` called with a scalar operand (neither a real tensor nor a
ComplexTensor) does not raise: the dispatch falls through both branches and
the method returns a copy of `a`'s content (concatenation of the unchanged
halves). -/
theorem mm_scalar_returns_copy (k m : Nat) (a : Tensor) (s r i : ℚ)
    (h : Wf2 a (2 * k) m) :
    ComplexTensor.mm a (.realScalar s) = some ⟨[k + k, m], a.flat⟩ ∧
    ComplexTensor.mm a (.complexScalar r i) = some ⟨[k + k, m], a.flat⟩ :=
  ⟨mm_realScalar_eq h s, mm_complexScalar_eq h r i⟩

/-- C4 witness: a concrete 1×1 complex tensor matrix-multiplied by the
scalar 3 returns a copy of itself instead of raising. -/
theorem mm_scalar_returns_copy_witness :
    ComplexTensor.mm ⟨[2, 1], [1, 2]⟩ (.realScalar 3) = some ⟨[2, 1], [1, 2]⟩ ∧
    ComplexTensor.mm ⟨[2, 1], [1, 2]⟩ (.complexScalar 3 4) = some ⟨[2, 1], [1, 2]⟩ := by
  have h := mm_scalar_returns_copy 1 1 ⟨[2, 1], [1, 2]⟩ 3 3 4 ⟨rfl, rfl⟩
  exact ⟨h.1, h.2⟩

/-- C4 counterexample: the claim says `mm` with a scalar operand raises
UnsupportedOperandError rather than returning a result; in fact it returns
`some` result (a copy of the input's content), never an error. -/
theorem mm_scalar_no_error_counterexample :
    ComplexTensor.mm ⟨[2, 1], [1, 2]⟩ (.realScalar 3) = some ⟨[2, 1], [1, 2]⟩ ∧
    ComplexTensor.mm ⟨[2, 1], [1, 2]⟩ (.realScalar 3) ≠ none := by
  have h := mm_realScalar_eq (a := ⟨[2, 1], [1, 2]⟩) (k := 1) (m := 1) ⟨rfl, rfl⟩ 3
  exact ⟨h, by rw [h]; exact Option.some_ne_none _⟩

/-- C5: the constructor does not double the first dimension.  With size
arguments `(10, 20)` the code builds `size_args = [2] + [20]` and allocates
shape `(10, 2, 20)` — a 3-D tensor — instead of the `(20, 20)` the spec
requires; no InvalidShapeError path exists.  On the resulting 3-D shape the
`real` accessor (used by every operation, including the module docstring's
own example `c.mm(c.t())`) fails. -/
theorem ctor_shape_not_doubled :
    ComplexTensor.ctorSizeArgs 10 [20] = [10, 2, 20] ∧
    ComplexTensor.ctorSizeArgs 10 [20] ≠ [2 * 10, 20] ∧
    ComplexTensor.real ⟨[10, 2, 20], List.replicate 400 0⟩ = none ∧
    ComplexTensor.t ⟨[10, 2, 20], List.replicate 400 0⟩ = none := by
  have hre : ComplexTensor.real ⟨[10, 2, 20], List.replicate 400 0⟩ = none := rfl
  refine ⟨rfl, by decide, hre, ?_⟩
  simp only [ComplexTensor.t, hre, Option.bind_eq_bind, Option.none_bind]

/-- C7: constructing a ComplexTensor from real n×m data R stacked on top of
I yields `real` equal to R (rows [0, n)) and `imag` equal to I
(rows [n, 2n)), where n = shape[0] / 2. -/
theorem real_imag_views_of_stack (n m : Nat) (R I : List ℚ)
    (hR : R.length = n * m) :
    ComplexTensor.real ⟨[2 * n, m], R ++ I⟩ = some ⟨[n, m], R⟩ ∧
    ComplexTensor.imag ⟨[2 * n, m], R ++ I⟩ = some ⟨[n, m], I⟩ := by
  rw [two_mul]
  exact ⟨real_of_cat _ _ hR, imag_of_cat _ _ hR⟩

/-- C7 witness: stacking R = [[1, 2]] on I = [[3, 4]] gives a 2×2 backing
array whose real view is R and imag view is I. -/
theorem real_imag_views_of_stack_witness :
    ComplexTensor.real ⟨[2, 2], [1, 2, 3, 4]⟩ = some ⟨[1, 2], [1, 2]⟩ ∧
    ComplexTensor.imag ⟨[2, 2], [1, 2, 3, 4]⟩ = some ⟨[1, 2], [3, 4]⟩ := by
  have h := real_imag_views_of_stack 1 2 [1, 2] [3, 4] rfl
  exact ⟨h.1, h.2⟩

/-- C3: for addition and subtraction, an operand with no imaginary component
(a real tensor of the shape of `a.real`, or a real scalar) combines only the
real parts and leaves the imaginary view unchanged (`(a ± real_b).imag =
a.imag`); a complex operand (ComplexTensor or complex scalar) combines
componentwise: `real' = real ± other.real`, `imag' = imag ± other.imag`. -/
theorem add_sub_imag_policy (k m : Nat) (a tb b : Tensor) (s r i : ℚ)
    (h : Wf2 a (2 * k) m) (htb : tb.shape = [k, m]) (htbl : tb.flat.length = k * m)
    (hb : Wf2 b (2 * k) m) :
    (ComplexTensor.add a (.realTensor tb) =
       some ⟨[k + k, m],
         List.zipWith (· + ·) (a.flat.take (k * m)) tb.flat ++ a.flat.drop (k * m)⟩ ∧
     ComplexTensor.imag ⟨[k + k, m],
         List.zipWith (· + ·) (a.flat.take (k * m)) tb.flat ++ a.flat.drop (k * m)⟩ =
       ComplexTensor.imag a) ∧
    (ComplexTensor.add a (.realScalar s) =
       some ⟨[k + k, m], (a.flat.take (k * m)).map (· + s) ++ a.flat.drop (k * m)⟩ ∧
     ComplexTensor.imag ⟨[k + k, m],
         (a.flat.take (k * m)).map (· + s) ++ a.flat.drop (k * m)⟩ =
       ComplexTensor.imag a) ∧
    (ComplexTensor.add a (.complexTensor b) =
       some ⟨[k + k, m],
         List.zipWith (· + ·) (a.flat.take (k * m)) (b.flat.take (k * m)) ++
         List.zipWith (· + ·) (a.flat.drop (k * m)) (b.flat.drop (k * m))⟩ ∧
     ComplexTensor.real ⟨[k + k, m],
         List.zipWith (· + ·) (a.flat.take (k * m)) (b.flat.take (k * m)) ++
         List.zipWith (· + ·) (a.flat.drop (k * m)) (b.flat.drop (k * m))⟩ =
       some ⟨[k, m], List.zipWith (· + ·) (a.flat.take (k * m)) (b.flat.take (k * m))⟩ ∧
     ComplexTensor.imag ⟨[k + k, m],
         List.zipWith (· + ·) (a.flat.take (k * m)) (b.flat.take (k * m)) ++
         List.zipWith (· + ·) (a.flat.drop (k * m)) (b.flat.drop (k * m))⟩ =
       some ⟨[k, m], List.zipWith (· + ·) (a.flat.drop (k * m)) (b.flat.drop (k * m))⟩) ∧
    (ComplexTensor.add a (.complexScalar r i) =
       some ⟨[k + k, m],
         (a.flat.take (k * m)).map (· + r) ++ (a.flat.drop (k * m)).map (· + i)⟩ ∧
     ComplexTensor.imag ⟨[k + k, m],
         (a.flat.take (k * m)).map (· + r) ++ (a.flat.drop (k * m)).map (· + i)⟩ =
       some ⟨[k, m], (a.flat.drop (k * m)).map (· + i)⟩) ∧
    (ComplexTensor.sub a (.realTensor tb) =
       some ⟨[k + k, m],
         List.zipWith (· - ·) (a.flat.take (k * m)) tb.flat ++ a.flat.drop (k * m)⟩ ∧
     ComplexTensor.imag ⟨[k + k, m],
         List.zipWith (· - ·) (a.flat.take (k * m)) tb.flat ++ a.flat.drop (k * m)⟩ =
       ComplexTensor.imag a) ∧
    (ComplexTensor.sub a (.realScalar s) =
       some ⟨[k + k, m], (a.flat.take (k * m)).map (· - s) ++ a.flat.drop (k * m)⟩ ∧
     ComplexTensor.imag ⟨[k + k, m],
         (a.flat.take (k * m)).map (· - s) ++ a.flat.drop (k * m)⟩ =
       ComplexTensor.imag a) ∧
    (ComplexTensor.sub a (.complexTensor b) =
       some ⟨[k + k, m],
         List.zipWith (· - ·) (a.flat.take (k * m)) (b.flat.take (k * m)) ++
         List.zipWith (· - ·) (a.flat.drop (k * m)) (b.flat.drop (k * m))⟩ ∧
     ComplexTensor.real ⟨[k + k, m],
         List.zipWith (· - ·) (a.flat.take (k * m)) (b.flat.take (k * m)) ++
         List.zipWith (· - ·) (a.flat.drop (k * m)) (b.flat.drop (k * m))⟩ =
       some ⟨[k, m], List.zipWith (· - ·) (a.flat.take (k * m)) (b.flat.take (k * m))⟩ ∧
     ComplexTensor.imag ⟨[k + k, m],
         List.zipWith (· - ·) (a.flat.take (k * m)) (b.flat.take (k * m)) ++
         List.zipWith (· - ·) (a.flat.drop (k * m)) (b.flat.drop (k * m))⟩ =
       some ⟨[k, m], List.zipWith (· - ·) (a.flat.drop (k * m)) (b.flat.drop (k * m))⟩) ∧
    (ComplexTensor.sub a (.complexScalar r i) =
       some ⟨[k + k, m],
         (a.flat.take (k * m)).map (· - r) ++ (a.flat.drop (k * m)).map (· - i)⟩ ∧
     ComplexTensor.imag ⟨[k + k, m],
         (a.flat.take (k * m)).map (· - r) ++ (a.flat.drop (k * m)).map (· - i)⟩ =
       some ⟨[k, m], (a.flat.drop (k * m)).map (· - i)⟩) := by
  have ha2 : a.flat.length = k * m + k * m := by
    rw [h.2]; ring
  have hb2 : b.flat.length = k * m + k * m := by
    rw [hb.2]; ring
  refine ⟨⟨add_realTensor_eq h htb, ?_⟩, ⟨add_realScalar_eq h s, ?_⟩,
    ⟨add_complexTensor_eq h hb, ?_, ?_⟩, ⟨add_complexScalar_eq h r i, ?_⟩,
    ⟨sub_realTensor_eq h htb, ?_⟩, ⟨sub_realScalar_eq h s, ?_⟩,
    ⟨sub_complexTensor_eq h hb, ?_, ?_⟩, ⟨sub_complexScalar_eq h r i, ?_⟩⟩
  · rw [imag_of_cat _ _
      (by simp only [List.length_zipWith, List.length_take, List.length_drop]; omega), imag_of_wf h]
  · rw [imag_of_cat _ _
      (by simp only [List.length_map, List.length_take, List.length_drop]; omega), imag_of_wf h]
  · exact real_of_cat _ _
      (by simp only [List.length_zipWith, List.length_take, List.length_drop]; omega)
  · exact imag_of_cat _ _
      (by simp only [List.length_zipWith, List.length_take, List.length_drop]; omega)
  · exact imag_of_cat _ _
      (by simp only [List.length_map, List.length_take, List.length_drop]; omega)
  · rw [imag_of_cat _ _
      (by simp only [List.length_zipWith, List.length_take, List.length_drop]; omega), imag_of_wf h]
  · rw [imag_of_cat _ _
      (by simp only [List.length_map, List.length_take, List.length_drop]; omega), imag_of_wf h]
  · exact real_of_cat _ _
      (by simp only [List.length_zipWith, List.length_take, List.length_drop]; omega)
  · exact imag_of_cat _ _
      (by simp only [List.length_zipWith, List.length_take, List.length_drop]; omega)
  · exact imag_of_cat _ _
      (by simp only [List.length_map, List.length_take, List.length_drop]; omega)

/-- C3 witness: `(5+7i) + [2]` adds only real parts and keeps the imaginary
view; `(5+7i) - (4+6i)` subtracts componentwise, giving `1 + 1i`. -/
theorem add_sub_imag_policy_witness :
    ComplexTensor.add ⟨[2, 1], [5, 7]⟩ (.realTensor ⟨[1, 1], [2]⟩) =
      some ⟨[2, 1], [7, 7]⟩ ∧
    ComplexTensor.imag ⟨[2, 1], [7, 7]⟩ = ComplexTensor.imag ⟨[2, 1], [5, 7]⟩ ∧
    ComplexTensor.sub ⟨[2, 1], [5, 7]⟩ (.complexScalar 4 6) =
      some ⟨[2, 1], [1, 1]⟩ := by
  have h := add_sub_imag_policy 1 1 ⟨[2, 1], [5, 7]⟩ ⟨[1, 1], [2]⟩ ⟨[2, 1], [0, 0]⟩
    3 4 6 ⟨rfl, rfl⟩ rfl rfl ⟨rfl, rfl⟩
  obtain ⟨⟨h1, h2⟩, -, -, -, -, -, -, ⟨h8, -⟩⟩ := h
  refine ⟨?_, ?_, ?_⟩
  · rw [h1]; norm_num
  · norm_num [ComplexTensor.imag]
  · rw [h8]; norm_num

/-- C2: every operation producing a new ComplexTensor (add, sub, mul, mm, t)
on a ComplexTensor with even first dimension yields a result built by
concatenating a real part and an imaginary part along axis 0 (real first):
the result exists, its first dimension is even, its real and imag views have
identical shape, and its data is the real view's data followed by the imag
view's data. -/
theorem ops_even_stacked (k m : Nat) (a : Tensor) (h : Wf2 a (2 * k) m) :
    (∀ o, CompatEW k m o → ∃ u, ComplexTensor.add a o = some u ∧ EvenStacked u) ∧
    (∀ o, CompatEW k m o → ∃ u, ComplexTensor.sub a o = some u ∧ EvenStacked u) ∧
    (∀ o, CompatEW k m o → ∃ u, ComplexTensor.mul a o = some u ∧ EvenStacked u) ∧
    (∀ p o, CompatMM m p o → ∃ u, ComplexTensor.mm a o = some u ∧ EvenStacked u) ∧
    (∃ u, ComplexTensor.t a = some u ∧ EvenStacked u) := by
  have ha2 : a.flat.length = k * m + k * m := by
    rw [h.2]; ring
  refine ⟨?_, ?_, ?_, ?_, ?_⟩
  · intro o ho
    cases o with
    | realTensor tb =>
        obtain ⟨h1, h2⟩ := ho
        exact ⟨_, add_realTensor_eq h h1, evenStacked_of_cat _ _
          (by simp only [List.length_zipWith, List.length_take, List.length_drop]; omega)⟩
    | complexTensor b =>
        obtain ⟨h1, h2⟩ := ho
        have hb2 : b.flat.length = k * m + k * m := by rw [h2]; ring
        exact ⟨_, add_complexTensor_eq h ⟨h1, h2⟩, evenStacked_of_cat _ _
          (by simp only [List.length_zipWith, List.length_take, List.length_drop]; omega)⟩
    | realScalar s =>
        exact ⟨_, add_realScalar_eq h s, evenStacked_of_cat _ _
          (by simp only [List.length_map, List.length_take, List.length_drop]; omega)⟩
    | complexScalar r i =>
        exact ⟨_, add_complexScalar_eq h r i, evenStacked_of_cat _ _
          (by simp only [List.length_map, List.length_take, List.length_drop]; omega)⟩
  · intro o ho
    cases o with
    | realTensor tb =>
        obtain ⟨h1, h2⟩ := ho
        exact ⟨_, sub_realTensor_eq h h1, evenStacked_of_cat _ _
          (by simp only [List.length_zipWith, List.length_take, List.length_drop]; omega)⟩
    | complexTensor b =>
        obtain ⟨h1, h2⟩ := ho
        have hb2 : b.flat.length = k * m + k * m := by rw [h2]; ring
        exact ⟨_, sub_complexTensor_eq h ⟨h1, h2⟩, evenStacked_of_cat _ _
          (by simp only [List.length_zipWith, List.length_take, List.length_drop]; omega)⟩
    | realScalar s =>
        exact ⟨_, sub_realScalar_eq h s, evenStacked_of_cat _ _
          (by simp only [List.length_map, List.length_take, List.length_drop]; omega)⟩
    | complexScalar r i =>
        exact ⟨_, sub_complexScalar_eq h r i, evenStacked_of_cat _ _
          (by simp only [List.length_map, List.length_take, List.length_drop]; omega)⟩
  · intro o ho
    cases o with
    | realTensor tb =>
        obtain ⟨h1, h2⟩ := ho
        exact ⟨_, mul_realTensor_eq h h1, evenStacked_of_cat _ _
          (by simp only [List.length_zipWith, List.length_take, List.length_drop]; omega)⟩
    | complexTensor b =>
        obtain ⟨h1, h2⟩ := ho
        have hb2 : b.flat.length = k * m + k * m := by rw [h2]; ring
        exact ⟨_, mul_complexTensor_eq h ⟨h1, h2⟩, evenStacked_of_cat _ _
          (by simp only [List.length_zipWith, List.length_take, List.length_drop]; omega)⟩
    | realScalar s =>
        exact ⟨_, mul_realScalar_eq h s, evenStacked_of_cat _ _
          (by simp only [List.length_map, List.length_take, List.length_drop]; omega)⟩
    | complexScalar r i =>
        exact ⟨_, mul_complexScalar_eq h r i, evenStacked_of_cat _ _
          (by simp only [List.length_zipWith, List.length_take, List.length_drop]; omega)⟩
  · intro p o ho
    cases o with
    | realTensor tb =>
        obtain ⟨h1, h2⟩ := ho
        exact ⟨_, mm_realTensor_eq h h1, evenStacked_of_cat _ _ (mmFlat_length k m p _ _)⟩
    | complexTensor b =>
        obtain ⟨h1, h2⟩ := ho
        exact ⟨_, mm_complexTensor_eq h ⟨h1, h2⟩, evenStacked_of_cat _ _
          (by simp only [List.length_zipWith, mmFlat_length]; omega)⟩
    | realScalar s =>
        refine ⟨_, mm_realScalar_eq h s, ?_⟩
        rw [show a.flat = a.flat.take (k * m) ++ a.flat.drop (k * m) from
          (List.take_append_drop _ _).symm]
        exact evenStacked_of_cat _ _ (take_len_of_wf h)
    | complexScalar r i =>
        refine ⟨_, mm_complexScalar_eq h r i, ?_⟩
        rw [show a.flat = a.flat.take (k * m) ++ a.flat.drop (k * m) from
          (List.take_append_drop _ _).symm]
        exact evenStacked_of_cat _ _ (take_len_of_wf h)
  · exact ⟨_, t_eq h, evenStacked_of_cat _ _ (tFlat_length k m _)⟩

/-- C2 witness: adding the real scalar 1 to a concrete 2×1 complex tensor
produces an even-stacked result. -/
theorem ops_even_stacked_witness :
    ComplexTensor.add ⟨[2, 1], [2, 3]⟩ (.realScalar 1) = some ⟨[2, 1], [3, 3]⟩ ∧
    EvenStacked ⟨[2, 1], [3, 3]⟩ := by
  obtain ⟨hadd, -, -, -, -⟩ := ops_even_stacked 1 1 ⟨[2, 1], [2, 3]⟩ ⟨rfl, rfl⟩
  obtain ⟨u, hu, hs⟩ := hadd (.realScalar 1) trivial
  have he : ComplexTensor.add ⟨[2, 1], [2, 3]⟩ (.realScalar 1) = some ⟨[2, 1], [3, 3]⟩ := by
    rw [hu]
    rw [add_realScalar_eq (a := ⟨[2, 1], [2, 3]⟩) (k := 1) (m := 1) ⟨rfl, rfl⟩ 1] at hu
    rw [← Option.some_inj.mp hu]
    norm_num
  refine ⟨he, ?_⟩
  rw [hu] at he
  rw [← Option.some_inj.mp he]
  exact hs

/-- C8: for a well-formed 2-D ComplexTensor, `t` returns the transpose of the
real part and the transpose of the imaginary part concatenated
real-then-imaginary, and applying `t` twice restores the original real and
imaginary content. -/
theorem t_involutive (k m : Nat) (a : Tensor) (h : Wf2 a (2 * k) m) :
    ComplexTensor.t a =
      some ⟨[m + m, k],
        tFlat k m (a.flat.take (k * m)) ++ tFlat k m (a.flat.drop (k * m))⟩ ∧
    ComplexTensor.real ⟨[m + m, k],
        tFlat k m (a.flat.take (k * m)) ++ tFlat k m (a.flat.drop (k * m))⟩ =
      some ⟨[m, k], tFlat k m (a.flat.take (k * m))⟩ ∧
    ComplexTensor.imag ⟨[m + m, k],
        tFlat k m (a.flat.take (k * m)) ++ tFlat k m (a.flat.drop (k * m))⟩ =
      some ⟨[m, k], tFlat k m (a.flat.drop (k * m))⟩ ∧
    ComplexTensor.t ⟨[m + m, k],
        tFlat k m (a.flat.take (k * m)) ++ tFlat k m (a.flat.drop (k * m))⟩ =
      some ⟨[k + k, m], a.flat.take (k * m) ++ a.flat.drop (k * m)⟩ ∧
    ComplexTensor.real ⟨[k + k, m], a.flat.take (k * m) ++ a.flat.drop (k * m)⟩ =
      ComplexTensor.real a ∧
    ComplexTensor.imag ⟨[k + k, m], a.flat.take (k * m) ++ a.flat.drop (k * m)⟩ =
      ComplexTensor.imag a := by
  have l1 := take_len_of_wf h
  have l2 := drop_len_of_wf h
  have hf1 : (tFlat k m (a.flat.take (k * m))).length = m * k := tFlat_length k m _
  refine ⟨t_eq h, real_of_cat _ _ hf1, imag_of_cat _ _ hf1, ?_, ?_, ?_⟩
  · have hd : Wf2 ⟨[m + m, k],
        tFlat k m (a.flat.take (k * m)) ++ tFlat k m (a.flat.drop (k * m))⟩ (2 * m) k := by
      constructor
      · simp [two_mul]
      · simp only [List.length_append, tFlat_length]
        ring
    rw [t_eq hd]
    simp only [List.take_left' hf1, List.drop_left' hf1, tFlat_tFlat l1, tFlat_tFlat l2]
  · rw [real_of_cat _ _ l1, real_of_wf h]
  · rw [imag_of_cat _ _ l1, imag_of_wf h]

/-- C8 witness: transposing a 4×2 backing array (a 2×2 complex matrix) twice
restores the original content; the single transpose stacks the transposed
real part over the transposed imaginary part. -/
theorem t_involutive_witness :
    ComplexTensor.t ⟨[4, 2], [1, 2, 3, 4, 5, 6, 7, 8]⟩ =
      some ⟨[4, 2], [1, 3, 2, 4, 5, 7, 6, 8]⟩ ∧
    ComplexTensor.t ⟨[4, 2], [1, 3, 2, 4, 5, 7, 6, 8]⟩ =
      some ⟨[4, 2], [1, 2, 3, 4, 5, 6, 7, 8]⟩ := by
  obtain ⟨h1, -, -, h4, -, -⟩ :=
    t_involutive 2 2 ⟨[4, 2], [1, 2, 3, 4, 5, 6, 7, 8]⟩ ⟨rfl, rfl⟩
  have e : (⟨[2 + 2, 2],
      tFlat 2 2 (List.take (2 * 2) [1, 2, 3, 4, 5, 6, 7, 8]) ++
      tFlat 2 2 (List.drop (2 * 2) [1, 2, 3, 4, 5, 6, 7, 8])⟩ : Tensor) =
      ⟨[4, 2], [1, 3, 2, 4, 5, 7, 6, 8]⟩ := by
    norm_num [tFlat, List.range_succ]
  constructor
  · rw [h1]
    norm_num [tFlat, List.range_succ]
  · rw [← e, h4]
    norm_num

/-- C9: `abs` returns a plain real-valued tensor (an `RTensor`, not a
stacked ComplexTensor) of the same shape `[k, m]` as the real view, computed
elementwise as `sqrt(real² + imag²)`; when the imaginary half is all zero
the result is the elementwise absolute value of the real half. -/
theorem abs_magnitude (k m : Nat) (a : Tensor) (h : Wf2 a (2 * k) m) :
    ComplexTensor.abs a = some ⟨[k, m],
      List.zipWith (fun (x y : ℚ) => Real.sqrt ((x : ℝ) ^ 2 + (y : ℝ) ^ 2))
        (a.flat.take (k * m)) (a.flat.drop (k * m))⟩ ∧
    ((∀ q ∈ a.flat.drop (k * m), q = 0) →
      List.zipWith (fun (x y : ℚ) => Real.sqrt ((x : ℝ) ^ 2 + (y : ℝ) ^ 2))
        (a.flat.take (k * m)) (a.flat.drop (k * m)) =
      (a.flat.take (k * m)).map (fun (q : ℚ) => |(q : ℝ)|)) := by
  constructor
  · simp [ComplexTensor.abs, real_of_wf h, imag_of_wf h]
  · intro hz
    refine zipWith_sqrt_zero _ _ ?_ hz
    rw [take_len_of_wf h, drop_len_of_wf h]

/-- C9 witness: the magnitude of the purely real 1×1 complex tensor `3 + 0i`
is the real array `[3]`. -/
theorem abs_magnitude_witness :
    ComplexTensor.abs ⟨[2, 1], [3, 0]⟩ = some ⟨[1, 1], [(3 : ℝ)]⟩ := by
  obtain ⟨h1, h2⟩ := abs_magnitude 1 1 ⟨[2, 1], [3, 0]⟩ ⟨rfl, rfl⟩
  rw [h1, h2 (by norm_num)]
  norm_num

/-- C10: every public operation requires the backing array to be exactly
2-D: on a backing tensor whose shape is not of the form `[n, m]`, the
`real`/`imag` accessors fail, and so do add, sub, mul, mm, t and abs for
every operand. -/
theorem ops_require_2d (a : Tensor) (h : a.shape.length ≠ 2) :
    ComplexTensor.real a = none ∧ ComplexTensor.imag a = none ∧
    (∀ o, ComplexTensor.add a o = none ∧ ComplexTensor.sub a o = none ∧
      ComplexTensor.mul a o = none ∧ ComplexTensor.mm a o = none) ∧
    ComplexTensor.t a = none ∧ ComplexTensor.abs a = none := by
  have hre : ComplexTensor.real a = none := by
    unfold ComplexTensor.real
    split
    · rename_i n m2 heq
      exact absurd (by simp [heq]) h
    · rfl
  have him : ComplexTensor.imag a = none := by
    unfold ComplexTensor.imag
    split
    · rename_i n m2 heq
      exact absurd (by simp [heq]) h
    · rfl
  refine ⟨hre, him, ?_, ?_, ?_⟩
  · intro o
    refine ⟨?_, ?_, ?_, ?_⟩ <;>
      simp only [ComplexTensor.add, ComplexTensor.sub, ComplexTensor.mul,
        ComplexTensor.mm, hre, Option.bind_eq_bind, Option.none_bind]
  · simp only [ComplexTensor.t, hre, Option.bind_eq_bind, Option.none_bind]
  · simp only [ComplexTensor.abs, hre, Option.bind_eq_bind, Option.none_bind]

/-- C10 witness: on a 1-D backing tensor every public operation fails. -/
theorem ops_require_2d_witness :
    ComplexTensor.real ⟨[4], [1, 2, 3, 4]⟩ = none ∧
    ComplexTensor.add ⟨[4], [1, 2, 3, 4]⟩ (.realScalar 1) = none ∧
    ComplexTensor.mm ⟨[4], [1, 2, 3, 4]⟩ (.realTensor ⟨[1, 1], [1]⟩) = none ∧
    ComplexTensor.t ⟨[4], [1, 2, 3, 4]⟩ = none ∧
    ComplexTensor.abs ⟨[4], [1, 2, 3, 4]⟩ = none := by
  obtain ⟨h1, -, h3, h4, h5⟩ := ops_require_2d ⟨[4], [1, 2, 3, 4]⟩ (by decide)
  exact ⟨h1, (h3 (.realScalar 1)).1, (h3 (.realTensor ⟨[1, 1], [1]⟩)).2.2.2, h4, h5⟩

/-- C6: deep-copying a non-leaf ComplexTensor raises the only-leaves error;
deep-copying a leaf succeeds, allocates a fresh storage holding a copy of
the original's data (so writing to the copy's storage leaves the original's
storage unchanged), re-tags the duplicate as a ComplexTensor, and preserves
`requires_grad`. -/
theorem deepcopy_spec (st : Store) (x : TensorObj) (h : x.sid < st.next) :
    (x.isLeaf = false → ComplexTensor.deepcopy st x = .error .onlyLeavesSupported) ∧
    (x.isLeaf = true →
      ComplexTensor.deepcopy st x =
        .ok (ComplexTensor.copyObj st x, ComplexTensor.copyStore st x) ∧
      (ComplexTensor.copyObj st x).isComplexClass = true ∧
      (ComplexTensor.copyObj st x).isLeaf = true ∧
      (ComplexTensor.copyObj st x).requiresGrad = x.requiresGrad ∧
      (ComplexTensor.copyObj st x).sid ≠ x.sid ∧
      (ComplexTensor.copyStore st x).mem (ComplexTensor.copyObj st x).sid = st.mem x.sid ∧
      ∀ v, (writeStore (ComplexTensor.copyStore st x)
          (ComplexTensor.copyObj st x).sid v).mem x.sid = st.mem x.sid) := by
  have hne : x.sid ≠ st.next := by omega
  constructor
  · intro hleaf
    simp [ComplexTensor.deepcopy, hleaf]
  · intro hleaf
    refine ⟨?_, rfl, rfl, rfl, ?_, ?_, ?_⟩
    · by_cases hsp : x.isSparse = true
      · simp [ComplexTensor.deepcopy, ComplexTensor.copyObj, ComplexTensor.copyStore,
          hleaf, hsp]
      · simp only [Bool.not_eq_true] at hsp
        simp [ComplexTensor.deepcopy, ComplexTensor.copyObj, ComplexTensor.copyStore,
          hleaf, hsp]
    · simp only [ComplexTensor.copyObj]
      omega
    · simp [ComplexTensor.copyStore, ComplexTensor.copyObj]
    · intro v
      simp [writeStore, ComplexTensor.copyStore, ComplexTensor.copyObj, hne]

/-- C6 witness: deep-copying a concrete leaf tensor (storage 2 in a pool
whose next fresh id is 5) succeeds, writing `[99]` into the copy's fresh
storage leaves the original storage's contents `[2]` unchanged, and
deep-copying a non-leaf tensor errors. -/
theorem deepcopy_spec_witness :
    ComplexTensor.deepcopy ⟨5, fun j => [(j : ℚ)]⟩ ⟨2, true, true, false, true⟩ =
      .ok (ComplexTensor.copyObj ⟨5, fun j => [(j : ℚ)]⟩ ⟨2, true, true, false, true⟩,
        ComplexTensor.copyStore ⟨5, fun j => [(j : ℚ)]⟩ ⟨2, true, true, false, true⟩) ∧
    (writeStore (ComplexTensor.copyStore ⟨5, fun j => [(j : ℚ)]⟩ ⟨2, true, true, false, true⟩)
        5 [99]).mem 2 = [(2 : ℚ)] ∧
    ComplexTensor.deepcopy ⟨5, fun j => [(j : ℚ)]⟩ ⟨2, false, true, false, true⟩ =
      .error .onlyLeavesSupported := by
  have h := deepcopy_spec ⟨5, fun j => [(j : ℚ)]⟩ ⟨2, true, true, false, true⟩ (by decide)
  have h2 := h.2 rfl
  refine ⟨h2.1, ?_, ?_⟩
  · exact h2.2.2.2.2.2.2 [99]
  · exact (deepcopy_spec ⟨5, fun j => [(j : ℚ)]⟩ ⟨2, false, true, false, true⟩ (by decide)).1 rfl
